import Mathlib

/-!
Verification development for the open-model-selector model normalization and
retrieval pipeline.  The TypeScript sources are shallowly embedded: raw
provider records are JSON-like dynamic values, the per-variant normalizers are
total Lean functions returning `Except` where the source can throw, and the
list derivation pipeline of the selector component is a pure function.

Conventions of the embedding:
* JavaScript numbers are modelled as exact rationals together with the special
  values NaN, Infinity and -Infinity.  IEEE 754 double rounding is abstracted
  away; every arithmetic step the sources perform (division by 1,000,000) is
  exact on the inputs the claims exercise.
* `Date` parsing is environment dependent, so the derivation pipeline is
  parameterized by an arbitrary parse function `String → Option Int`
  (`none` models an invalid date, i.e. `getTime()` returning NaN).
* Locale-sensitive `localeCompare` is modelled as code-point order; no claim
  depends on the collation details.
-/

set_option autoImplicit false

namespace OMS

/-- JavaScript number: an exact rational, or one of the special values. -/
inductive JsNum where
  | finite (q : ℚ)
  | nan
  | inf
  | ninf
deriving DecidableEq, Repr

/-- JSON-like dynamic value, the type of raw provider records and their
fields.  `undefined` is the JavaScript `undefined`, distinct from `null`. -/
inductive Js where
  | null
  | undefined
  | bool (b : Bool)
  | num (n : JsNum)
  | str (s : String)
  | obj (fields : List (String × Js))
  | arr (elems : List Js)

/-- Property access `v.k` / `v?.k`.  Objects look the key up (object keys are
unique in values produced by JSON); any other receiver yields `undefined`,
matching JavaScript property access on primitives and the optional-chaining
guard the sources place before every access on a possibly nullish value. -/
def Js.get (v : Js) (k : String) : Js :=
  match v with
  | .obj fields =>
    match fields.find? (fun p => p.1 == k) with
    | some p => p.2
    | none => .undefined
  | _ => .undefined

/-- JavaScript truthiness. -/
def Js.truthy : Js → Bool
  | .null => false
  | .undefined => false
  | .bool b => b
  | .num (.finite q) => q != 0
  | .num .nan => false
  | .num .inf => true
  | .num .ninf => true
  | .str s => s != ""
  | .obj _ => true
  | .arr _ => true

/-- Is the value `null` or `undefined` (the nullish values of `??`). -/
def Js.isNullish : Js → Bool
  | .null => true
  | .undefined => true
  | _ => false

/-- The `||` operator: first operand when truthy, else the second. -/
def jsOr (a b : Js) : Js := if a.truthy then a else b

/-- The `??` operator: first operand when non-nullish, else the second. -/
def jsCoalesce (a b : Js) : Js := if a.isNullish then b else a

/-- Key presence check, the `in` operator on plain objects. -/
def Js.hasKey : Js → String → Bool
  | .obj fields, k => fields.any (fun p => p.1 == k)
  | _, _ => false

/-- `typeof v === "object"` (true for objects, arrays and `null`). -/
def Js.typeofObject : Js → Bool
  | .null => true
  | .obj _ => true
  | .arr _ => true
  | _ => false

/-! ### String-to-number coercion

The ECMAScript StringNumericLiteral grammar: surrounding whitespace is
ignored, the empty remainder is `0`, and the body is a signed decimal literal,
a signed `Infinity`, or an unsigned hex/octal/binary literal.  Anything else
coerces to NaN. -/

/-- StrWhiteSpaceChar (the common cases). -/
def isJsSpace (c : Char) : Bool :=
  c == ' ' || c == '\t' || c == '\n' || c == '\r'

/-- Value of the digits of a numeral in the given base, `none` if some
character is not a digit of that base or the list is empty. -/
def digitsToNat (base : Nat) (isDig : Char → Bool) (val : Char → Nat) :
    List Char → Option Nat
  | [] => none
  | cs =>
    if cs.all isDig then
      some (cs.foldl (fun n c => base * n + val c) 0)
    else none

/-- Decimal digit list to value. -/
def decDigits (cs : List Char) : Option Nat :=
  digitsToNat 10 (fun c => c.isDigit) (fun c => c.toNat - 48) cs

/-- Hexadecimal digit list to value. -/
def hexDigits (cs : List Char) : Option Nat :=
  digitsToNat 16 (fun c => c.isDigit || (('a' ≤ c.toLower) && (c.toLower ≤ 'f')))
    (fun c => if c.isDigit then c.toNat - 48 else c.toLower.toNat - 87) cs

/-- Mantissa of a decimal literal: `digits`, `digits . digits?`, or
`. digits`, as an exact rational. -/
def parseMantissa (cs : List Char) : Option ℚ :=
  match cs.splitOn '.' with
  | [intPart] => (decDigits intPart).map (fun n => (n : ℚ))
  | [intPart, fracPart] =>
    match intPart, fracPart with
    | [], [] => none
    | [], f => (decDigits f).map (fun n => (n : ℚ) / ((10 : ℚ) ^ f.length))
    | i, [] => (decDigits i).map (fun n => (n : ℚ))
    | i, f => do
      let ni ← decDigits i
      let nf ← decDigits f
      pure ((ni : ℚ) + (nf : ℚ) / ((10 : ℚ) ^ f.length))
  | _ => none

/-- Exponent part after `e`/`E`: optional sign and decimal digits. -/
def parseExponent (cs : List Char) : Option Int :=
  match cs with
  | '+' :: rest => (decDigits rest).map (fun n => (n : Int))
  | '-' :: rest => (decDigits rest).map (fun n => -(n : Int))
  | rest => (decDigits rest).map (fun n => (n : Int))

/-- Unsigned decimal literal with optional exponent. -/
def parseDecimalLit (cs : List Char) : Option ℚ :=
  match cs.splitOn 'e' with
  | [m] =>
    match cs.splitOn 'E' with
    | [m2] => parseMantissa m2
    | [m2, ex] => do
      let q ← parseMantissa m2
      let n ← parseExponent ex
      pure (q * (10 : ℚ) ^ n)
    | _ =>
      -- unreachable split shape; keep the plain-mantissa reading of m
      parseMantissa m
  | [m, ex] => do
    let q ← parseMantissa m
    let n ← parseExponent ex
    pure (q * (10 : ℚ) ^ n)
  | _ => none

/-- Signed numeric body (after whitespace trimming): decimal literal,
`Infinity`, or a radix-prefixed integer literal. -/
def parseNumericBody (cs : List Char) : Option JsNum :=
  match cs with
  | '0' :: 'x' :: rest => (hexDigits rest).map (fun n => .finite (n : ℚ))
  | '0' :: 'X' :: rest => (hexDigits rest).map (fun n => .finite (n : ℚ))
  | '0' :: 'o' :: rest =>
    (digitsToNat 8 (fun c => '0' ≤ c && c ≤ '7') (fun c => c.toNat - 48) rest).map
      (fun n => .finite (n : ℚ))
  | '0' :: 'b' :: rest =>
    (digitsToNat 2 (fun c => c == '0' || c == '1') (fun c => c.toNat - 48) rest).map
      (fun n => .finite (n : ℚ))
  | '+' :: rest =>
    if rest = "Infinity".toList then some .inf
    else (parseDecimalLit rest).map (fun q => .finite q)
  | '-' :: rest =>
    if rest = "Infinity".toList then some .ninf
    else (parseDecimalLit rest).map (fun q => .finite (-q))
  | rest =>
    if rest = "Infinity".toList then some .inf
    else (parseDecimalLit rest).map (fun q => .finite q)

/-- ECMAScript ToNumber on a string. -/
def strToNumber (s : String) : JsNum :=
  let cs := (s.toList.dropWhile isJsSpace).reverse.dropWhile isJsSpace |>.reverse
  match cs with
  | [] => .finite 0
  | body => (parseNumericBody body).getD .nan

/-- ECMAScript ToNumber.  Plain objects coerce through
`ToPrimitive` to the string "[object Object]" and hence NaN; arrays coerce
through their joined string form, of which the empty and the singleton
number/string cases are the ones a JSON payload can reach. -/
def jsToNumber : Js → JsNum
  | .null => .finite 0
  | .undefined => .nan
  | .bool b => .finite (if b then 1 else 0)
  | .num n => n
  | .str s => strToNumber s
  | .obj _ => .nan
  | .arr [] => .finite 0
  | .arr [.num n] => n
  | .arr [.str s] => strToNumber s
  | .arr [.null] => .finite 0
  | .arr [.undefined] => .finite 0
  | .arr _ => .nan

/-- `toNum` from `src/utils/normalizers/base.ts`: `undefined` for `null`,
`undefined` and the empty string, then `Number(v)`, with NaN mapped to
`undefined` (transcribed per constructor: the strict-equality test against
the empty string can only fire on a string).  Total, hence it never
throws. -/
def toNum : Js → Option JsNum
  | .null => none
  | .undefined => none
  | .str s =>
    if s = "" then none
    else
      match strToNumber s with
      | .nan => none
      | n => some n
  | v =>
    match jsToNumber v with
    | .nan => none
    | n => some n

/-! ### Base-field extraction (src/utils/normalizers/base.ts) -/

/-- The shared base fields every variant normalizer produces by spreading the
result of `extractBaseFields`.  Fields whose TypeScript casts are unchecked at
runtime stay dynamic (`Js`); a missing value is `Js.undefined`. -/
structure BaseFields where
  id : String
  name : Js
  provider : Js
  created : JsNum
  description : Js
  betaModel : Js
  privacy : Js
  offline : Js
  modelSource : Js
  traits : Js
  deprecation : Js
  is_favorite : Bool

/-- `extractBaseFields(raw)`.  `nowSec` stands for the ambient
`Math.floor(Date.now() / 1000)` read when `created` is absent.  The function
throws (models as `Except.error`) when neither `id` nor `model_id` yields a
truthy value, and when the winning id value is a truthy non-string (on which
`id.includes` would raise a TypeError at runtime). -/
def extractBaseFields (nowSec : Int) (raw : Js) : Except String BaseFields :=
  let spec := raw.get "model_spec"
  let idv := jsOr (raw.get "id") (jsOr (raw.get "model_id") (.str ""))
  if idv.truthy then
    match idv with
    | .str id =>
      .ok
        { id := id
          name := jsOr (spec.get "name") (jsOr (raw.get "name") (.str id))
          provider :=
            if id.contains '/' then .str ((id.splitOn "/").headD "")
            else jsOr (raw.get "owned_by") (.str "Unknown")
          created := (toNum (raw.get "created")).getD (.finite (nowSec : ℚ))
          description :=
            jsOr (spec.get "description") (jsOr (raw.get "description") .undefined)
          betaModel := jsCoalesce (spec.get "betaModel") (raw.get "betaModel")
          privacy := jsCoalesce (spec.get "privacy") (raw.get "privacy")
          offline := jsCoalesce (spec.get "offline") (raw.get "offline")
          modelSource := jsCoalesce (spec.get "modelSource") (raw.get "modelSource")
          traits := jsCoalesce (spec.get "traits") (raw.get "traits")
          deprecation := spec.get "deprecation"
          is_favorite := false }
    | _ => .error "TypeError: id.includes is not a function"
  else .error "Model missing required id field"

/-- Build the object literal that projects the listed keys out of `v`
(the shape `{ k1: v.k1, k2: v.k2, ... }` the normalizers construct for the
capability and constraint clusters). -/
def projectKeys (v : Js) (ks : List String) : Js :=
  .obj (ks.map (fun k => (k, v.get k)))

/-- The per-million conversion `x?.usd !== undefined ? x.usd / 1_000_000 :
undefined` applied to an already-read `usd` value. -/
def perMillion : Js → Option JsNum
  | .undefined => none
  | usd =>
    match jsToNumber usd with
    | .finite q => some (.finite (q / 1000000))
    | .nan => some .nan
    | .inf => some .inf
    | .ninf => some .ninf

/-! ### Text normalizer (src/utils/normalizers/text.ts) -/

/-- Canonical per-token text pricing; `none` is the TypeScript `undefined`. -/
structure TextPricing where
  prompt : Option JsNum
  completion : Option JsNum
  cache_input : Option JsNum
  cache_write : Option JsNum
deriving DecidableEq, Repr

structure TextModel where
  base : BaseFields
  context_length : JsNum
  pricing : TextPricing
  capabilities : Option Js
  constraints : Option Js

/-- `normalizeTextModel(raw)`. -/
def normalizeTextModel (nowSec : Int) (raw : Js) : Except String TextModel :=
  match extractBaseFields nowSec raw with
  | .error e => .error e
  | .ok base =>
    let spec := raw.get "model_spec"
    let specPricing := spec.get "pricing"
    let context_length :=
      (((toNum (raw.get "context_length")).orElse
          (fun _ => toNum (raw.get "context_window"))).orElse
        (fun _ => toNum (spec.get "availableContextTokens"))).getD (.finite 0)
    let rawPricing := raw.get "pricing"
    let metaPricing := (raw.get "metadata").get "pricing"
    let costPricing := raw.get "cost"
    let pricing : TextPricing :=
      if rawPricing.truthy then
        { prompt := toNum (rawPricing.get "prompt")
          completion := toNum (rawPricing.get "completion")
          cache_input := toNum (rawPricing.get "cache_input")
          cache_write := toNum (rawPricing.get "cache_write") }
      else if metaPricing.truthy then
        { prompt := toNum (metaPricing.get "prompt")
          completion := toNum (metaPricing.get "completion")
          cache_input := none
          cache_write := none }
      else if costPricing.truthy then
        { prompt := toNum (costPricing.get "prompt")
          completion := toNum (costPricing.get "completion")
          cache_input := none
          cache_write := none }
      else if specPricing.truthy then
        { prompt := perMillion ((specPricing.get "input").get "usd")
          completion := perMillion ((specPricing.get "output").get "usd")
          cache_input := perMillion ((specPricing.get "cache_input").get "usd")
          cache_write := perMillion ((specPricing.get "cache_write").get "usd") }
      else
        { prompt := none, completion := none, cache_input := none, cache_write := none }
    let caps := spec.get "capabilities"
    let constraints := spec.get "constraints"
    .ok
      { base := base
        context_length := context_length
        pricing := pricing
        capabilities :=
          if caps.truthy then
            some (projectKeys caps
              ["optimizedForCode", "supportsVision", "supportsReasoning",
               "supportsFunctionCalling", "supportsResponseSchema",
               "supportsLogProbs", "supportsAudioInput", "supportsVideoInput",
               "supportsWebSearch", "quantization"])
          else none
        constraints :=
          if constraints.truthy then
            some (projectKeys constraints ["temperature", "top_p"])
          else none }

/-! ### Model types and heuristic type inference
(src/utils/normalizers/type-inference.ts) -/

/-- The eight model-type variant tags. -/
inductive ModelType where
  | text
  | image
  | video
  | inpaint
  | embedding
  | tts
  | asr
  | upscale
deriving DecidableEq, Repr

/-- JavaScript word character, the `\\w` class of a non-unicode RegExp. -/
def isWordChar (c : Char) : Bool :=
  c.isAlphanum || c == '_'

/-- If `a` is a prefix of `s`, return the remainder of `s`. -/
def dropExact : List Char → List Char → Option (List Char)
  | [], s => some s
  | _ :: _, [] => none
  | x :: xs, y :: ys => if x = y then dropExact xs ys else none

/-- Scan for an occurrence of the alternative `a` in `s` flanked by word
boundaries.  `prevIsWord` records whether the character before the current
position is a word character (`false` at the start of the string).  Every
alternative of the rule table starts and ends with a word character, so the
`\\b` on each side demands a non-word character or the string edge there. -/
def wbAux (a : List Char) (prevIsWord : Bool) : List Char → Bool
  | [] => false
  | c :: cs =>
    (match dropExact a (c :: cs) with
     | some rest =>
       !prevIsWord &&
         (match rest with
          | [] => true
          | d :: _ => !isWordChar d)
     | none => false)
    || wbAux a (isWordChar c) cs

/-- Case-insensitive word-boundary test: does `/\\b(alt1|...|altn)\\b/i`
accept `s`?  Both the alternatives (written lowercase) and the subject are
canonicalized per character, matching the ASCII case folding of the `i`
flag. -/
def wbMatches (alts : List String) (s : String) : Bool :=
  alts.any (fun a => wbAux (a.toList.map Char.toLower) false (s.toList.map Char.toLower))

/-- `MODEL_ID_TYPE_PATTERNS`: the ordered rule list, each rule the alternative
set of one word-boundary-anchored case-insensitive pattern with its type. -/
def MODEL_ID_TYPE_PATTERNS : List (List String × ModelType) :=
  [ (["embed", "embedding"], .embedding),
    (["dall-e", "stable-diffusion", "sdxl", "midjourney", "flux"], .image),
    (["tts"], .tts),
    (["whisper", "asr"], .asr),
    (["sora", "video", "wan"], .video),
    (["inpaint"], .inpaint),
    (["upscale", "esrgan"], .upscale) ]

/-- `inferTypeFromId(id)`: first rule whose pattern accepts the id, else
no match. -/
def inferTypeFromId (id : String) : Option ModelType :=
  (MODEL_ID_TYPE_PATTERNS.find? (fun r => wbMatches r.1 id)).map (fun r => r.2)

/-! ### The remaining variant normalizers
(src/utils/normalizers/{image,video,inpaint,embedding,tts,asr,upscale}.ts) -/

structure ImagePricing where
  generation : Js
  upscale_2x : Js
  upscale_4x : Js
  resolutions : Option (List (String × Js))

structure ImageModel where
  base : BaseFields
  pricing : ImagePricing
  constraints : Option Js
  supportsWebSearch : Js

/-- The per-resolution pricing normalization inside `normalizeImageModel`:
defined whenever the raw value is a truthy `typeof "object"` value, and keeps
the entries that are objects carrying a `usd` key, mapping each to
`value.usd ?? 0`.  `Object.entries` of an array enumerates index keys. -/
def normalizeResolutions : Js → Option (List (String × Js))
  | .obj fields =>
    some (fields.filterMap (fun p =>
      if p.2.truthy && p.2.typeofObject && p.2.hasKey "usd" then
        some (p.1, jsCoalesce (p.2.get "usd") (.num (.finite 0)))
      else none))
  | .arr es =>
    some ((es.enum.map (fun p => (toString p.1, p.2))).filterMap (fun p =>
      if p.2.truthy && p.2.typeofObject && p.2.hasKey "usd" then
        some (p.1, jsCoalesce (p.2.get "usd") (.num (.finite 0)))
      else none))
  | _ => none

/-- `normalizeImageModel(raw)`. -/
def normalizeImageModel (nowSec : Int) (raw : Js) : Except String ImageModel :=
  match extractBaseFields nowSec raw with
  | .error e => .error e
  | .ok base =>
    let spec := raw.get "model_spec"
    let pricing := spec.get "pricing"
    let constraints := spec.get "constraints"
    .ok
      { base := base
        pricing :=
          { generation := (pricing.get "generation").get "usd"
            upscale_2x := ((pricing.get "upscale").get "2x").get "usd"
            upscale_4x := ((pricing.get "upscale").get "4x").get "usd"
            resolutions := normalizeResolutions (pricing.get "resolutions") }
        constraints :=
          if constraints.truthy then
            some (projectKeys constraints
              ["promptCharacterLimit", "steps", "widthHeightDivisor",
               "aspectRatios", "defaultAspectRatio", "resolutions",
               "defaultResolution"])
          else none
        supportsWebSearch := jsCoalesce (spec.get "supportsWebSearch") .undefined }

structure VideoModel where
  base : BaseFields
  constraints : Option Js
  model_sets : Js

/-- `normalizeVideoModel(raw)`: no pricing field exists on this variant. -/
def normalizeVideoModel (nowSec : Int) (raw : Js) : Except String VideoModel :=
  match extractBaseFields nowSec raw with
  | .error e => .error e
  | .ok base =>
    let spec := raw.get "model_spec"
    let constraints := spec.get "constraints"
    .ok
      { base := base
        constraints :=
          if constraints.truthy then
            some (projectKeys constraints
              ["model_type", "aspect_ratios", "resolutions", "durations",
               "audio", "audio_configurable", "audio_input", "video_input"])
          else none
        model_sets := jsCoalesce (spec.get "model_sets") (raw.get "model_sets") }

structure InpaintModel where
  base : BaseFields
  generation : Js
  constraints : Option Js

/-- `normalizeInpaintModel(raw)`: flat generation price, no conversion. -/
def normalizeInpaintModel (nowSec : Int) (raw : Js) : Except String InpaintModel :=
  match extractBaseFields nowSec raw with
  | .error e => .error e
  | .ok base =>
    let spec := raw.get "model_spec"
    let pricing := spec.get "pricing"
    let constraints := spec.get "constraints"
    .ok
      { base := base
        generation := (pricing.get "generation").get "usd"
        constraints :=
          if constraints.truthy then
            some (projectKeys constraints ["aspectRatios", "combineImages"])
          else none }

structure EmbeddingPricing where
  input : Option JsNum
  output : Option JsNum
deriving DecidableEq, Repr

structure EmbeddingModel where
  base : BaseFields
  pricing : EmbeddingPricing

/-- `normalizeEmbeddingModel(raw)`: per-million input and output prices from
`model_spec.pricing`. -/
def normalizeEmbeddingModel (nowSec : Int) (raw : Js) : Except String EmbeddingModel :=
  match extractBaseFields nowSec raw with
  | .error e => .error e
  | .ok base =>
    let specPricing := (raw.get "model_spec").get "pricing"
    .ok
      { base := base
        pricing :=
          { input := perMillion ((specPricing.get "input").get "usd")
            output := perMillion ((specPricing.get "output").get "usd") } }

structure TtsModel where
  base : BaseFields
  input : Option JsNum
  voices : Js

/-- `normalizeTtsModel(raw)`: per-million input price from
`model_spec.pricing.input.usd`. -/
def normalizeTtsModel (nowSec : Int) (raw : Js) : Except String TtsModel :=
  match extractBaseFields nowSec raw with
  | .error e => .error e
  | .ok base =>
    let spec := raw.get "model_spec"
    let specPricing := spec.get "pricing"
    .ok
      { base := base
        input := perMillion ((specPricing.get "input").get "usd")
        voices := jsCoalesce (spec.get "voices") .undefined }

structure AsrModel where
  base : BaseFields
  per_audio_second : Js

/-- `normalizeAsrModel(raw)`: flat per-audio-second price, no conversion. -/
def normalizeAsrModel (nowSec : Int) (raw : Js) : Except String AsrModel :=
  match extractBaseFields nowSec raw with
  | .error e => .error e
  | .ok base =>
    let specPricing := (raw.get "model_spec").get "pricing"
    .ok
      { base := base
        per_audio_second := (specPricing.get "per_audio_second").get "usd" }

structure UpscaleModel where
  base : BaseFields
  generation : Js

/-- `normalizeUpscaleModel(raw)`: flat generation price, no conversion. -/
def normalizeUpscaleModel (nowSec : Int) (raw : Js) : Except String UpscaleModel :=
  match extractBaseFields nowSec raw with
  | .error e => .error e
  | .ok base =>
    let specPricing := (raw.get "model_spec").get "pricing"
    .ok
      { base := base
        generation := (specPricing.get "generation").get "usd" }

/-! ### Dispatching normalizer and response extractor
(src/utils/normalizers/index.ts) -/

/-- String rendering of a JavaScript number.  Integral rationals print
exactly; the double shortest-round-trip formatting of non-integral values is
abstracted (no claim inspects it). -/
def numToString : JsNum → String
  | .finite q => if q.den = 1 then toString q.num else toString q
  | .nan => "NaN"
  | .inf => "Infinity"
  | .ninf => "-Infinity"

/-- ECMAScript ToString, used where a RegExp or template literal coerces its
input.  Array elements join with commas, nullish elements as empty. -/
def jsToString : Js → String
  | .null => "null"
  | .undefined => "undefined"
  | .bool true => "true"
  | .bool false => "false"
  | .num n => numToString n
  | .str s => s
  | .obj _ => "[object Object]"
  | .arr es =>
    String.intercalate ","
      (es.map (fun e =>
        match e with
        | .null => ""
        | .undefined => ""
        | .str s => s
        | .num n => numToString n
        | .bool true => "true"
        | .bool false => "false"
        | .obj _ => "[object Object]"
        | .arr _ => ""))

/-- The explicit-type tier of the dispatcher: `rawType && VALID_TYPES.has
(rawType)`.  Only the eight known tag strings qualify; any other value
behaves as absent. -/
def explicitType : Js → Option ModelType
  | .str "text" => some .text
  | .str "image" => some .image
  | .str "video" => some .video
  | .str "inpaint" => some .inpaint
  | .str "embedding" => some .embedding
  | .str "tts" => some .tts
  | .str "asr" => some .asr
  | .str "upscale" => some .upscale
  | _ => none

/-- The id the dispatcher feeds the heuristic:
`(raw.id as string) ?? (raw.model_id as string) ?? ""`, coerced to a string by
the RegExp test. -/
def dispatchId (raw : Js) : String :=
  jsToString (jsCoalesce (raw.get "id") (jsCoalesce (raw.get "model_id") (.str "")))

/-- Three-tier type resolution of `defaultModelNormalizer`: explicit known
tag, else heuristic inference from the id, else the text fallback. -/
def resolveType (raw : Js) : ModelType :=
  ((explicitType (raw.get "type")).orElse
    (fun _ => inferTypeFromId (dispatchId raw))).getD .text

/-- The canonical tagged union the dispatcher produces. -/
inductive AnyModel where
  | text (m : TextModel)
  | image (m : ImageModel)
  | video (m : VideoModel)
  | inpaint (m : InpaintModel)
  | embedding (m : EmbeddingModel)
  | tts (m : TtsModel)
  | asr (m : AsrModel)
  | upscale (m : UpscaleModel)

/-- The base-field cluster of whichever variant the union holds. -/
def AnyModel.base : AnyModel → BaseFields
  | .text m => m.base
  | .image m => m.base
  | .video m => m.base
  | .inpaint m => m.base
  | .embedding m => m.base
  | .tts m => m.base
  | .asr m => m.base
  | .upscale m => m.base

/-- `defaultModelNormalizer(raw)`: resolve the type, dispatch to the matching
variant normalizer. -/
def defaultModelNormalizer (nowSec : Int) (raw : Js) : Except String AnyModel :=
  match resolveType raw with
  | .text => (normalizeTextModel nowSec raw).map .text
  | .image => (normalizeImageModel nowSec raw).map .image
  | .video => (normalizeVideoModel nowSec raw).map .video
  | .inpaint => (normalizeInpaintModel nowSec raw).map .inpaint
  | .embedding => (normalizeEmbeddingModel nowSec raw).map .embedding
  | .tts => (normalizeTtsModel nowSec raw).map .tts
  | .asr => (normalizeAsrModel nowSec raw).map .asr
  | .upscale => (normalizeUpscaleModel nowSec raw).map .upscale

/-- `defaultResponseExtractor(body)`: a top-level array as is, else the
`data` array, else the `models` array, else empty. -/
def defaultResponseExtractor (body : Js) : List Js :=
  match body with
  | .arr es => es
  | .obj fields =>
    match (Js.obj fields).get "data" with
    | .arr es => es
    | _ =>
      match (Js.obj fields).get "models" with
      | .arr es => es
      | _ => []
  | _ => []

/-! ### Retrieval orchestrator (src/hooks/use-models.ts)

`useModels` is a React hook; its effect body is embedded as a pure function
of the props.  The synchronous phase of the effect either settles the
tri-state without touching the injected fetch function, or reaches the
`fetchFn(url, ...)` call; the two outcomes are the two constructors of
`HookPhase`, so producing a `settled` value is the formal statement that the
injected fetch function is never invoked. -/

/-- The fields of `AnyModel` that the hook and the selector derivation
pipeline consult (`id`, `type`, `name`, `created`, `is_favorite`,
`deprecation.date`); the variant payloads are pass-through for these layers
and are omitted from this view. -/
structure MModel where
  id : String
  name : String
  provider : String
  created : ℚ
  type : ModelType
  is_favorite : Bool
  deprecation : Option String
deriving DecidableEq, Repr

/-- The scheme validation regex `/^https?:\\/\\//i`: the subject starts,
after per-character ASCII case folding, with one of the two scheme
literals. -/
def hasHttpScheme (s : String) : Bool :=
  let l := s.toList.map Char.toLower
  (dropExact "http://".toList l).isSome || (dropExact "https://".toList l).isSome

/-- The error message of the configuration (invalid scheme) failure. -/
def invalidSchemeMsg : String :=
  "Invalid baseUrl scheme: URL must start with http:// or https://"

/-- `baseUrl.replace(/\\/+$/, "")`. -/
def stripTrailingSlashes (s : String) : String :=
  String.mk ((s.toList.reverse.dropWhile (fun c => c == '/')).reverse)

/-- `new URLSearchParams(params).toString()` (percent-encoding abstracted;
no claim inspects the encoding). -/
def queryString (qp : List (String × String)) : String :=
  String.intercalate "&" (qp.map (fun p => p.1 ++ "=" ++ p.2))

/-- The request URL `cleanBase + "/models" + (qs ? "?" + qs : "")`. -/
def buildUrl (b : String) (qp : List (String × String)) : String :=
  let qs := queryString qp
  stripTrailingSlashes b ++ "/models" ++ (if qs != "" then "?" ++ qs else "")

structure HookProps where
  baseUrl : Option String
  apiKey : Option String
  type : Option ModelType
  queryParams : List (String × String)

/-- Outcome of the synchronous phase of the `useModels` effect.  `settled`
carries the post-type-filter `models` value, the `loading` flag and the
`error` message; `fetchStarted` records that control reached the invocation
of the injected fetch function, with the request URL and the authorization
header value (present only for a truthy `apiKey`). -/
inductive HookPhase where
  | settled (models : List MModel) (loading : Bool) (error : Option String)
  | fetchStarted (url : String) (authHeader : Option String)
deriving DecidableEq, Repr

/-- The client-side type filter applied by the hook to the settled list. -/
def typeFilter (ty : Option ModelType) (l : List MModel) : List MModel :=
  match ty with
  | none => l
  | some t => l.filter (fun m => m.type == t)

/-- The synchronous phase of the `useModels` effect: missing or empty
`baseUrl` settles to the empty idle state; a `baseUrl` failing the scheme
regex settles to the configuration error; otherwise the request URL and
headers are built and the injected fetch function is invoked. -/
def useModelsSettle (p : HookProps) : HookPhase :=
  match p.baseUrl with
  | none => .settled (typeFilter p.type []) false none
  | some b =>
    if b = "" then .settled (typeFilter p.type []) false none
    else if !hasHttpScheme b then
      .settled (typeFilter p.type []) false (some invalidSchemeMsg)
    else
      .fetchStarted (buildUrl b p.queryParams)
        (match p.apiKey with
         | some k => if k != "" then some ("Bearer " ++ k) else none
         | none => none)

/-- The id a normalization-failure warning names:
`raw.id ?? raw.model_id ?? "unknown"`. -/
def warnId (raw : Js) : Js :=
  jsCoalesce (raw.get "id") (jsCoalesce (raw.get "model_id") (.str "unknown"))

/-- One iteration of the per-record normalization loop of `useModels`: the
record is normalized inside a try/catch; a successful model with a truthy id
is pushed, a record whose normalization throws is skipped and a developer
warning naming `warnId raw` is recorded (second component). -/
def recordStep (normalizer : Js → Except String MModel)
    (acc : List MModel × List Js) (raw : Js) : List MModel × List Js :=
  match normalizer raw with
  | .ok m => if m.id != "" then (acc.1 ++ [m], acc.2) else acc
  | .error _ => (acc.1, acc.2 ++ [warnId raw])

/-- The per-record normalization loop of `useModels` over a batch.  The
normalizer is the pluggable per-record function, so it is a parameter. -/
def processRecords (normalizer : Js → Except String MModel) (raws : List Js) :
    List MModel × List Js :=
  raws.foldl (recordStep normalizer) ([], [])

/-! ### List derivation pipeline (src/components/model-selector.tsx)

`allModels` inside the `ModelSelector` component: merge by id (fetched first,
static second), favorites overlay in uncontrolled mode, deprecation
visibility filter, sort, deprecation partition.  The `Date` parse is the
abstract `parse` parameter; `now` is the single evaluation instant in the
same clock. -/

/-- `Map.set`: overwrite in place when the key exists (keeping its insertion
position), else append. -/
def jsMapSet (m : List (String × MModel)) (k : String) (v : MModel) :
    List (String × MModel) :=
  if m.any (fun p => p.1 == k) then
    m.map (fun p => if p.1 == k then (k, v) else p)
  else m ++ [(k, v)]

/-- `xs.forEach(m => map.set(m.id, m))`. -/
def jsMapInsertAll (m : List (String × MModel)) (xs : List MModel) :
    List (String × MModel) :=
  xs.foldl (fun acc x => jsMapSet acc x.id x) m

/-- The merge stage: an empty map, then the fetched models, then the
statically supplied models. -/
def mergeMap (fetched statics : List MModel) : List (String × MModel) :=
  jsMapInsertAll (jsMapInsertAll [] fetched) statics

/-- The merged model list, `Array.from(map.values())` after the merge
stage. -/
def mergeList (fetched statics : List MModel) : List MModel :=
  (mergeMap fetched statics).map (fun p => p.2)

/-- The favorites overlay: in uncontrolled mode, every entry whose id is in
the favorites set is replaced (at its position) by a copy with
`is_favorite := true`. -/
def favOverlay (uncontrolled : Bool) (favorites : List String)
    (m : List (String × MModel)) : List (String × MModel) :=
  if uncontrolled then
    m.map (fun p =>
      if favorites.contains p.2.id then (p.1, { p.2 with is_favorite := true })
      else p)
  else m

/-- `new Date(d) >= now` where `now` is the evaluation instant: false when
the date string does not parse (NaN comparison). -/
def dateGeNow (parse : String → Option Int) (now : Int) (d : String) : Bool :=
  match parse d with
  | some t => now ≤ t
  | none => false

/-- Is the entry past-deprecated, `m.deprecation && new Date(m.deprecation
.date) < now`: false without a deprecation field, and false when the date
does not parse (NaN comparison). -/
def pastDeprecated (parse : String → Option Int) (now : Int) (m : MModel) : Bool :=
  match m.deprecation with
  | none => false
  | some d =>
    match parse d with
    | some t => t < now
    | none => false

/-- The deprecation visibility filter: when `showDeprecated` is false, keep
an entry iff it has no deprecation field or `new Date(date) >= now`. -/
def depFilter (parse : String → Option Int) (now : Int) (showDeprecated : Bool)
    (l : List MModel) : List MModel :=
  if showDeprecated then l
  else
    l.filter (fun m =>
      match m.deprecation with
      | none => true
      | some d => dateGeNow parse now d)

inductive SortOrder where
  | name
  | created
deriving DecidableEq, Repr

/-- Stable insertion of `x` into an already sorted list: `x` goes in front
of the first element it may precede, hence after every earlier tie. -/
def insertSorted (le : MModel → MModel → Bool) (x : MModel) :
    List MModel → List MModel
  | [] => [x]
  | y :: ys => if le x y then x :: y :: ys else y :: insertSorted le x ys

/-- Stable sort (insertion sort), modelling the ES2019-stable
`Array.prototype.sort`. -/
def stableSort (le : MModel → MModel → Bool) (l : List MModel) : List MModel :=
  l.foldr (insertSorted le) []

/-- The sort stage: created descending, or comparison of `name || id`
ascending (`localeCompare` modelled as code-point order). -/
def sortStage (order : SortOrder) (l : List MModel) : List MModel :=
  match order with
  | .created => stableSort (fun a b => decide (b.created ≤ a.created)) l
  | .name =>
    stableSort (fun a b =>
      decide ((jsToString (jsOr (.str a.name) (.str a.id))) ≤
        (jsToString (jsOr (.str b.name) (.str b.id))))) l

/-- One iteration of the partition loop: push the entry onto the
non-deprecated or the deprecated accumulator. -/
def partitionStep (past : MModel → Bool)
    (acc : List MModel × List MModel) (m : MModel) : List MModel × List MModel :=
  if past m then (acc.1, acc.2 ++ [m]) else (acc.1 ++ [m], acc.2)

/-- The partition loop: one pass over the sorted list. -/
def depPartitionLoop (past : MModel → Bool) (l : List MModel) :
    List MModel × List MModel :=
  l.foldl (partitionStep past) ([], [])

/-- The deprecation partition stage, `[...nonDeprecated, ...deprecated]`. -/
def depPartition (parse : String → Option Int) (now : Int) (l : List MModel) :
    List MModel :=
  let p := depPartitionLoop (pastDeprecated parse now) l
  p.1 ++ p.2

/-- The full `allModels` derivation of `ModelSelector`: merge, favorites
overlay (uncontrolled mode only), deprecation visibility filter, sort,
deprecation partition. -/
def allModels (parse : String → Option Int) (now : Int)
    (fetched statics : List MModel) (uncontrolled : Bool)
    (localFavorites : List String) (showDeprecated : Bool)
    (sortOrder : SortOrder) : List MModel :=
  let m := favOverlay uncontrolled localFavorites (mergeMap fetched statics)
  let list := m.map (fun p => p.2)
  depPartition parse now (sortStage sortOrder (depFilter parse now showDeprecated list))

/-- `effectiveBaseUrl` of `ModelSelector`: consumer-provided models disable
the internal fetch by withholding the base url from `useModels`. -/
def effectiveBaseUrl (models : List MModel) (baseUrl : Option String) :
    Option String :=
  if models.length > 0 then none else baseUrl

/-- `isDeprecated(dateStr)` from src/utils/helpers.ts: date-only strings are
normalized to explicit UTC midnight before parsing, and an unparseable date
yields false (not deprecated). -/
def isDeprecated (parse : String → Option Int) (nowMs : Int) (dateStr : String) :
    Bool :=
  let dateOnly :=
    dateStr.length = 10 &&
      (dateStr.toList.enum.all (fun p =>
        if p.1 = 4 || p.1 = 7 then p.2 == '-' else p.2.isDigit))
  let normalized := if dateOnly then dateStr ++ "T00:00:00Z" else dateStr
  match parse normalized with
  | some ts => ts < nowMs
  | none => false

/-! ### Statement-side definitions for the claims -/

/-- Modelled from the specification of text pricing resolution (amended to
the behaviour of the source): the sources are tried in order — the flat
`raw.pricing` object, the nested `raw.metadata.pricing` object, the nested
`raw.cost` object, then the nested `raw.model_spec.pricing` object whose usd
values are divided by 1,000,000 — and the first present (truthy) source wins
entirely, with no field-by-field mixing; a field with no data at the winning
source, or no source at all, is undefined. -/
def claimTextPricing (raw : Js) : TextPricing :=
  let src1 := raw.get "pricing"
  let src2 := (raw.get "metadata").get "pricing"
  let src3 := raw.get "cost"
  let src4 := (raw.get "model_spec").get "pricing"
  if src1.truthy then
    { prompt := toNum (src1.get "prompt")
      completion := toNum (src1.get "completion")
      cache_input := toNum (src1.get "cache_input")
      cache_write := toNum (src1.get "cache_write") }
  else if src2.truthy then
    { prompt := toNum (src2.get "prompt")
      completion := toNum (src2.get "completion")
      cache_input := none
      cache_write := none }
  else if src3.truthy then
    { prompt := toNum (src3.get "prompt")
      completion := toNum (src3.get "completion")
      cache_input := none
      cache_write := none }
  else if src4.truthy then
    { prompt := perMillion ((src4.get "input").get "usd")
      completion := perMillion ((src4.get "output").get "usd")
      cache_input := perMillion ((src4.get "cache_input").get "usd")
      cache_write := perMillion ((src4.get "cache_write").get "usd") }
  else
    { prompt := none, completion := none, cache_input := none, cache_write := none }

/-- Does the normalization result carry `is_favorite = false` whenever it is
a success?  (Vacuously true on errors.) -/
def favFalse {α : Type} (baseOf : α → BaseFields) : Except String α → Bool
  | .error _ => true
  | .ok m => !(baseOf m).is_favorite

/-- Raw record whose first pricing source is present but empty while the
model-spec source carries `input.usd = 6`. -/
def emptyFirstSourceRaw : Js :=
  .obj
    [("id", .str "m1"),
     ("pricing", .obj []),
     ("model_spec",
      .obj [("pricing", .obj [("input", .obj [("usd", .num (.finite 6))])])])]

/-- Raw record whose only pricing source is the per-million model-spec one,
with `input.usd = 6`. -/
def perMillionSixRaw : Js :=
  .obj
    [("id", .str "m2"),
     ("model_spec",
      .obj [("pricing", .obj [("input", .obj [("usd", .num (.finite 6))])])])]

/-- Raw record with no pricing source at all. -/
def noPricingRaw : Js := .obj [("id", .str "m3")]

/-- A concrete date parse: "past" is instant 0, "future" is instant 10,
"boundary" is instant 5, anything else is unparseable. -/
def parseDemo : String → Option Int := fun s =>
  if s = "past" then some 0
  else if s = "future" then some 10
  else if s = "boundary" then some 5
  else none

/-- Non-deprecated concrete model. -/
def mActive : MModel :=
  { id := "model-a", name := "Model A", provider := "Unknown", created := 100,
    type := .text, is_favorite := false, deprecation := none }

/-- Past-deprecated concrete model (under `parseDemo` and instant 5). -/
def mPast : MModel :=
  { id := "model-p", name := "Model P", provider := "Unknown", created := 200,
    type := .text, is_favorite := false, deprecation := some "past" }

/-- Future-deprecated concrete model. -/
def mFuture : MModel :=
  { id := "model-f", name := "Model F", provider := "Unknown", created := 300,
    type := .text, is_favorite := false, deprecation := some "boundary" }

/-- Concrete model whose deprecation date string is unparseable. -/
def mBadDate : MModel :=
  { id := "bad-date", name := "Bad Date", provider := "Unknown", created := 50,
    type := .text, is_favorite := false, deprecation := some "not-a-date" }

/-- Fetched-side model of the merge-precedence instance. -/
def mFetchSide : MModel :=
  { id := "shared-id", name := "Fetched Name", provider := "Unknown",
    created := 1, type := .text, is_favorite := false, deprecation := none }

/-- Static-side model of the merge-precedence instance: same id, different
name. -/
def mStaticSide : MModel :=
  { id := "shared-id", name := "Static Name", provider := "Unknown",
    created := 2, type := .text, is_favorite := false, deprecation := none }

/-- A pluggable normalizer for the per-record isolation instance: throws on
the record whose id is "bad-model", succeeds otherwise. -/
def normDemo : Js → Except String MModel := fun raw =>
  match raw.get "id" with
  | .str "bad-model" => .error "boom"
  | .str s =>
    .ok
      { id := s, name := s, provider := "Unknown", created := 0,
        type := .text, is_favorite := false, deprecation := none }
  | _ => .error "missing id"

def rawGood1 : Js := .obj [("id", .str "good-1")]
def rawBad : Js := .obj [("id", .str "bad-model")]
def rawGood2 : Js := .obj [("id", .str "good-2")]

/-- Lookup in the insertion-ordered map representation. -/
def mapGet (m : List (String × MModel)) (k : String) : Option MModel :=
  (m.find? (fun p => p.1 == k)).map (fun p => p.2)

/-- The entries of a list sharing the given id, keeping order. -/
def withId (l : List MModel) (i : String) : List MModel :=
  l.filter (fun m => m.id == i)

/-- The normalized form `normDemo` gives the first good record. -/
def gdModel1 : MModel :=
  { id := "good-1", name := "good-1", provider := "Unknown", created := 0,
    type := .text, is_favorite := false, deprecation := none }

/-- The normalized form `normDemo` gives the second good record. -/
def gdModel2 : MModel :=
  { id := "good-2", name := "good-2", provider := "Unknown", created := 0,
    type := .text, is_favorite := false, deprecation := none }

/-! ### Helper lemmas -/

theorem recordStep_error (normalizer : Js → Except String MModel)
    (acc : List MModel × List Js) (raw : Js) (e : String)
    (h : normalizer raw = .error e) :
    recordStep normalizer acc raw = (acc.1, acc.2 ++ [warnId raw]) := by
  unfold recordStep
  rw [h]

theorem recordStep_ok_keep (normalizer : Js → Except String MModel)
    (acc : List MModel × List Js) (raw : Js) (m : MModel)
    (h : normalizer raw = .ok m) (hid : m.id ≠ "") :
    recordStep normalizer acc raw = (acc.1 ++ [m], acc.2) := by
  unfold recordStep
  rw [h]
  simp [hid]

theorem recordStep_ok_drop (normalizer : Js → Except String MModel)
    (acc : List MModel × List Js) (raw : Js) (m : MModel)
    (h : normalizer raw = .ok m) (hid : m.id = "") :
    recordStep normalizer acc raw = acc := by
  unfold recordStep
  rw [h]
  simp [hid]

theorem processRecords_aux (normalizer : Js → Except String MModel) (l : List Js) :
    ∀ (a : List MModel) (b : List Js),
      List.foldl (recordStep normalizer) (a, b) l =
      (a ++ l.filterMap (fun r =>
          match normalizer r with
          | .ok m => if m.id != "" then some m else none
          | .error _ => none),
       b ++ l.filterMap (fun r =>
          match normalizer r with
          | .ok _ => none
          | .error _ => some (warnId r))) := by
  induction l with
  | nil => intro a b; simp
  | cons r l ih =>
    intro a b
    rw [List.foldl_cons, List.filterMap_cons, List.filterMap_cons]
    cases h : normalizer r with
    | ok m =>
      by_cases hid : m.id = ""
      · rw [recordStep_ok_drop normalizer (a, b) r m h hid, ih]
        simp [h, hid]
      · rw [recordStep_ok_keep normalizer (a, b) r m h hid, ih]
        simp [h, hid]
    | error e =>
      rw [recordStep_error normalizer (a, b) r e h, ih]
      simp [h]

/-- The per-record loop keeps exactly the successful records with truthy ids
and warns, in order, on exactly the throwing records. -/
theorem processRecords_spec (normalizer : Js → Except String MModel)
    (raws : List Js) :
    processRecords normalizer raws =
      (raws.filterMap (fun r =>
          match normalizer r with
          | .ok m => if m.id != "" then some m else none
          | .error _ => none),
       raws.filterMap (fun r =>
          match normalizer r with
          | .ok _ => none
          | .error _ => some (warnId r))) := by
  unfold processRecords
  simpa using processRecords_aux normalizer raws [] []

theorem depPartitionLoop_aux (past : MModel → Bool) (l : List MModel) :
    ∀ (a b : List MModel),
      List.foldl (partitionStep past) (a, b) l =
      (a ++ l.filter (fun m => !past m), b ++ l.filter past) := by
  induction l with
  | nil => intro a b; simp
  | cons m l ih =>
    intro a b
    rw [List.foldl_cons]
    cases h : past m
    · rw [show partitionStep past (a, b) m = (a ++ [m], b) by unfold partitionStep; simp [h], ih]
      simp [h]
    · rw [show partitionStep past (a, b) m = (a, b ++ [m]) by unfold partitionStep; simp [h], ih]
      simp [h]

/-- The partition loop is the stable two-filter split. -/
theorem depPartitionLoop_spec (past : MModel → Bool) (l : List MModel) :
    depPartitionLoop past l = (l.filter (fun m => !past m), l.filter past) := by
  unfold depPartitionLoop
  simpa using depPartitionLoop_aux past l [] []

theorem mapGet_nil (k : String) : mapGet [] k = none := rfl

theorem mapGet_cons (p : String × MModel) (m : List (String × MModel)) (k : String) :
    mapGet (p :: m) k = if p.1 = k then some p.2 else mapGet m k := by
  unfold mapGet
  by_cases h : p.1 = k
  · simp [List.find?_cons, h]
  · simp [List.find?_cons, h]

theorem mapGet_overwrite (k : String) (v : MModel) :
    ∀ m : List (String × MModel), (∃ p ∈ m, p.1 = k) →
      mapGet (m.map (fun p => if p.1 == k then (k, v) else p)) k = some v := by
  intro m
  induction m with
  | nil => rintro ⟨p, hp, -⟩; exact absurd hp (List.not_mem_nil p)
  | cons p m ih =>
    intro h
    by_cases hp : p.1 = k
    · simp [hp, mapGet_cons]
    · have h2 : ∃ q ∈ m, q.1 = k := by
        rcases h with ⟨q, hq, hqk⟩
        rcases List.mem_cons.mp hq with rfl | hq2
        · exact absurd hqk hp
        · exact ⟨q, hq2, hqk⟩
      simp only [List.map_cons]
      rw [mapGet_cons]
      have hp2 : (if p.1 == k then (k, v) else p).1 ≠ k := by
        simp [hp]
      rw [if_neg hp2]
      exact ih h2

theorem mapGet_append_new (k : String) (v : MModel) :
    ∀ m : List (String × MModel), (∀ p ∈ m, p.1 ≠ k) →
      mapGet (m ++ [(k, v)]) k = some v := by
  intro m
  induction m with
  | nil => simp [mapGet_cons]
  | cons p m ih =>
    intro h
    have hp : p.1 ≠ k := h p (by simp)
    have h2 : ∀ q ∈ m, q.1 ≠ k := fun q hq => h q (by simp [hq])
    rw [List.cons_append, mapGet_cons, if_neg hp]
    exact ih h2

theorem any_key_iff (m : List (String × MModel)) (k : String) :
    (m.any fun p => p.1 == k) = true ↔ ∃ p ∈ m, p.1 = k := by
  rw [List.any_eq_true]
  constructor
  · rintro ⟨p, hp, hpk⟩
    exact ⟨p, hp, by simpa using hpk⟩
  · rintro ⟨p, hp, hpk⟩
    exact ⟨p, hp, by simpa using hpk⟩

theorem mapGet_set_self (m : List (String × MModel)) (k : String) (v : MModel) :
    mapGet (jsMapSet m k v) k = some v := by
  unfold jsMapSet
  by_cases h : (m.any fun p => p.1 == k) = true
  · rw [if_pos h]
    exact mapGet_overwrite k v m ((any_key_iff m k).mp h)
  · rw [if_neg h]
    refine mapGet_append_new k v m ?_
    intro p hp hpk
    exact h ((any_key_iff m k).mpr ⟨p, hp, hpk⟩)

theorem mapGet_set_ne (k k' : String) (v : MModel) (hne : k' ≠ k) :
    ∀ m : List (String × MModel), mapGet (jsMapSet m k v) k' = mapGet m k' := by
  intro m
  unfold jsMapSet
  by_cases hany : (m.any fun p => p.1 == k) = true
  · rw [if_pos hany]
    clear hany
    induction m with
    | nil => rfl
    | cons p m ih =>
      simp only [List.map_cons]
      rw [mapGet_cons, mapGet_cons]
      by_cases hp : p.1 = k
      · have hpk : p.1 ≠ k' := fun hc => hne (hc.symm.trans hp)
        have hkk : (if p.1 == k then (k, v) else p).1 ≠ k' := by
          simp [hp]
          exact fun hc => hne hc.symm
        rw [if_neg hkk, if_neg hpk]
        exact ih
      · have hkk : (if p.1 == k then (k, v) else p).1 = p.1 := by simp [hp]
        rw [hkk]
        by_cases hq : p.1 = k'
        · rw [if_pos hq, if_pos hq]
          simp [hp]
        · rw [if_neg hq, if_neg hq]
          exact ih
  · rw [if_neg hany]
    clear hany
    induction m with
    | nil =>
      rw [List.nil_append, mapGet_cons, mapGet_nil]
      have : k ≠ k' := fun hc => hne hc.symm
      rw [if_neg this]
    | cons p m ih =>
      rw [List.cons_append, mapGet_cons, mapGet_cons]
      by_cases hq : p.1 = k'
      · rw [if_pos hq, if_pos hq]
      · rw [if_neg hq, if_neg hq]
        exact ih

theorem keys_overwrite (k : String) (v : MModel) :
    ∀ m : List (String × MModel),
      (m.map (fun p => if p.1 == k then (k, v) else p)).map Prod.fst =
        m.map Prod.fst := by
  intro m
  induction m with
  | nil => rfl
  | cons p m ih =>
    simp only [List.map_cons]
    rw [ih]
    by_cases hp : p.1 = k
    · simp [hp]
    · simp [hp]

theorem nodup_keys_set (m : List (String × MModel)) (k : String) (v : MModel)
    (h : (m.map Prod.fst).Nodup) : ((jsMapSet m k v).map Prod.fst).Nodup := by
  unfold jsMapSet
  by_cases hany : (m.any fun p => p.1 == k) = true
  · rw [if_pos hany, keys_overwrite]
    exact h
  · rw [if_neg hany]
    have hk : k ∉ m.map Prod.fst := by
      intro hmem
      obtain ⟨p, hp, hpk⟩ := List.mem_map.mp hmem
      exact hany ((any_key_iff m k).mpr ⟨p, hp, hpk⟩)
    rw [List.map_append]
    refine List.Nodup.append h (List.nodup_singleton k) ?_
    intro a ha hb
    have : a = k := by simpa using hb
    subst this
    exact hk ha

theorem entries_id_set (m : List (String × MModel)) (v : MModel)
    (h : ∀ p ∈ m, p.1 = p.2.id) : ∀ p ∈ jsMapSet m v.id v, p.1 = p.2.id := by
  intro p hp
  unfold jsMapSet at hp
  by_cases hany : (m.any fun q => q.1 == v.id) = true
  · rw [if_pos hany] at hp
    obtain ⟨q, hq, hqp⟩ := List.mem_map.mp hp
    by_cases hqk : q.1 = v.id
    · rw [if_pos (by simpa using hqk)] at hqp
      rw [← hqp]
    · rw [if_neg (by simpa using hqk)] at hqp
      exact hqp ▸ h q hq
  · rw [if_neg hany] at hp
    rcases List.mem_append.mp hp with hl | hr
    · exact h p hl
    · rw [List.mem_singleton.mp hr]

theorem nodup_keys_insertAll (xs : List MModel) :
    ∀ m : List (String × MModel), (m.map Prod.fst).Nodup →
      ((jsMapInsertAll m xs).map Prod.fst).Nodup := by
  induction xs with
  | nil => intro m h; exact h
  | cons x xs ih =>
    intro m h
    exact ih (jsMapSet m x.id x) (nodup_keys_set m x.id x h)

theorem entries_id_insertAll (xs : List MModel) :
    ∀ m : List (String × MModel), (∀ p ∈ m, p.1 = p.2.id) →
      ∀ p ∈ jsMapInsertAll m xs, p.1 = p.2.id := by
  induction xs with
  | nil => intro m h; exact h
  | cons x xs ih =>
    intro m h
    exact ih (jsMapSet m x.id x) (entries_id_set m x h)

theorem mapGet_insertAll (k : String) (xs : List MModel) :
    ∀ m : List (String × MModel),
      mapGet (jsMapInsertAll m xs) k =
        match (withId xs k).getLast? with
        | some x => some x
        | none => mapGet m k := by
  induction xs with
  | nil => intro m; simp [jsMapInsertAll, withId]
  | cons x xs ih =>
    intro m
    have hstep : jsMapInsertAll m (x :: xs) = jsMapInsertAll (jsMapSet m x.id x) xs := rfl
    rw [hstep, ih]
    by_cases hx : x.id = k
    · have hw : withId (x :: xs) k = x :: withId xs k := by
        simp [withId, List.filter_cons, hx]
      rw [hw]
      cases hwl : withId xs k with
      | nil =>
        simp only [hwl, List.getLast?_nil, List.getLast?_singleton]
        subst hx
        exact mapGet_set_self m x.id x
      | cons z zs =>
        rw [List.getLast?_cons_cons]
        cases hg : (z :: zs).getLast? with
        | none =>
          have : (z :: zs) ≠ [] := by simp
          rw [← List.getLast?_isSome] at this
          rw [hg] at this
          exact absurd this (by simp)
        | some y => rfl
    · have hw : withId (x :: xs) k = withId xs k := by
        simp [withId, List.filter_cons, hx]
      rw [hw]
      cases hwl : withId xs k with
      | nil =>
        simp only [hwl, List.getLast?_nil]
        exact mapGet_set_ne x.id k x (fun hc => hx hc.symm) m
      | cons z zs => rfl

theorem find?_values (k : String) :
    ∀ m : List (String × MModel), (∀ p ∈ m, p.1 = p.2.id) →
      (m.map Prod.snd).find? (fun x => x.id == k) = mapGet m k := by
  intro m
  induction m with
  | nil => intro _; rfl
  | cons p m ih =>
    intro h
    have hp : p.1 = p.2.id := h p (by simp)
    have htl : ∀ q ∈ m, q.1 = q.2.id := fun q hq => h q (by simp [hq])
    rw [List.map_cons, List.find?_cons, mapGet_cons]
    by_cases hx : p.2.id = k
    · rw [if_pos (hp.trans hx)]
      simp [hx]
    · rw [if_neg (fun hc => hx (hp.symm.trans hc))]
      have : (p.2.id == k) = false := by simpa using hx
      simp only [this]
      exact ih htl

theorem mergeMap_entries_id (f s : List MModel) :
    ∀ p ∈ mergeMap f s, p.1 = p.2.id := by
  unfold mergeMap
  exact entries_id_insertAll s (jsMapInsertAll [] f)
    (entries_id_insertAll f [] (by intro p hp; exact absurd hp (List.not_mem_nil p)))

theorem mergeMap_keys_nodup (f s : List MModel) :
    ((mergeMap f s).map Prod.fst).Nodup := by
  unfold mergeMap
  exact nodup_keys_insertAll s (jsMapInsertAll [] f)
    (nodup_keys_insertAll f [] (by simp))

theorem mergeList_ids_eq_keys (f s : List MModel) :
    (mergeList f s).map (fun m => m.id) = (mergeMap f s).map Prod.fst := by
  unfold mergeList
  rw [List.map_map]
  refine List.map_congr_left ?_
  intro p hp
  exact (mergeMap_entries_id f s p hp).symm

theorem mergeList_find (f s : List MModel) (k : String) :
    (mergeList f s).find? (fun m => m.id == k) =
      match (withId s k).getLast? with
      | some x => some x
      | none =>
        match (withId f k).getLast? with
        | some x => some x
        | none => none := by
  unfold mergeList
  rw [find?_values k (mergeMap f s) (mergeMap_entries_id f s)]
  unfold mergeMap
  rw [mapGet_insertAll k s (jsMapInsertAll [] f)]
  rw [mapGet_insertAll k f []]
  rfl

theorem extractBaseFields_is_favorite (nowSec : Int) (raw : Js) (b : BaseFields)
    (h : extractBaseFields nowSec raw = .ok b) : b.is_favorite = false := by
  unfold extractBaseFields at h
  dsimp only [] at h
  split at h
  · split at h
    · cases h
      rfl
    · exact Except.noConfusion h
  · exact Except.noConfusion h

/-! ### Claim theorems -/

/-- C1: for every useModels invocation where baseUrl is a non-empty string
whose scheme is not http or https (case-insensitive), the hook immediately
settles with an empty model list, loading = false and the invalid-scheme
configuration error; the settled outcome means control never reaches the
invocation of the injected fetch function (the `fetchStarted` constructor). -/
theorem invalid_scheme_settles_without_fetch (b : String) (k : Option String)
    (ty : Option ModelType) (qp : List (String × String))
    (h1 : b ≠ "") (h2 : hasHttpScheme b = false) :
    useModelsSettle { baseUrl := some b, apiKey := k, type := ty, queryParams := qp } =
      .settled [] false (some invalidSchemeMsg) := by
  cases ty <;> simp [useModelsSettle, h1, h2, typeFilter]

/-- Witness for C1 at `javascript:alert(1)`. -/
theorem invalid_scheme_settles_without_fetch_witness :
    useModelsSettle
        { baseUrl := some "javascript:alert(1)", apiKey := none, type := none,
          queryParams := [] } =
      .settled [] false (some invalidSchemeMsg) :=
  invalid_scheme_settles_without_fetch "javascript:alert(1)" none none []
    (by decide) (by decide)

/-- C10: when the models prop is non-empty, `ModelSelector` withholds the
base url from `useModels`, which therefore settles idle with an empty fetched
list and never reaches the injected fetch function; the merge stage hence
receives an empty fetched list whenever the static list is non-empty. -/
theorem static_models_disable_fetch (models : List MModel) (baseUrl : Option String)
    (k : Option String) (ty : Option ModelType) (qp : List (String × String))
    (h : models ≠ []) :
    effectiveBaseUrl models baseUrl = none ∧
    useModelsSettle
        { baseUrl := effectiveBaseUrl models baseUrl, apiKey := k, type := ty,
          queryParams := qp } =
      .settled [] false none := by
  have he : effectiveBaseUrl models baseUrl = none := by
    unfold effectiveBaseUrl
    rw [if_pos (List.length_pos.mpr h)]
  refine ⟨he, ?_⟩
  rw [he]
  cases ty <;> simp [useModelsSettle, typeFilter]

/-- Witness for C10 with one static model and a live base url. -/
theorem static_models_disable_fetch_witness :
    effectiveBaseUrl [mActive] (some "https://api.example.com/v1") = none ∧
    useModelsSettle
        { baseUrl := effectiveBaseUrl [mActive] (some "https://api.example.com/v1"),
          apiKey := none, type := none, queryParams := [] } =
      .settled [] false none :=
  static_models_disable_fetch [mActive] (some "https://api.example.com/v1")
    none none [] (by decide)

/-- C3 (code bug): the repository helper `isDeprecated` and the partition
stage both treat an unparseable deprecation date as not deprecated, but the
visibility filter of the derivation pipeline compares `new Date(d) >= now`,
which is false on NaN, so a model with an unparseable date is dropped when
showDeprecated is false instead of being kept. -/
theorem unparseable_deprecation_dropped_by_filter :
    isDeprecated parseDemo 5 "not-a-date" = false ∧
    pastDeprecated parseDemo 5 mBadDate = false ∧
    allModels parseDemo 5 [] [mBadDate] true [] true SortOrder.created = [mBadDate] ∧
    allModels parseDemo 5 [] [mBadDate] true [] false SortOrder.created = [] := by
  refine ⟨by decide, by decide, by decide, by decide⟩

/-- C5: the deprecation partition stage is the stable two-filter split —
past-deprecated entries move to the tail preserving relative order — and an
entry with no deprecation field, an unparseable date, or a date at or after
the evaluation instant is never counted past-deprecated, while a date
strictly before the instant always is. -/
theorem deprecation_partition_stable (parse : String → Option Int) (now : Int)
    (l : List MModel) :
    depPartition parse now l =
      l.filter (fun m => !pastDeprecated parse now m) ++
        l.filter (pastDeprecated parse now) ∧
    (∀ m : MModel, m.deprecation = none → pastDeprecated parse now m = false) ∧
    (∀ (m : MModel) (d : String), m.deprecation = some d → parse d = none →
      pastDeprecated parse now m = false) ∧
    (∀ (m : MModel) (d : String) (t : Int), m.deprecation = some d →
      parse d = some t → now ≤ t → pastDeprecated parse now m = false) ∧
    (∀ (m : MModel) (d : String) (t : Int), m.deprecation = some d →
      parse d = some t → t < now → pastDeprecated parse now m = true) := by
  refine ⟨?_, ?_, ?_, ?_, ?_⟩
  · unfold depPartition
    rw [depPartitionLoop_spec]
  · intro m hm
    simp [pastDeprecated, hm]
  · intro m d hm hd
    simp [pastDeprecated, hm, hd]
  · intro m d t hm hd ht
    simp [pastDeprecated, hm, hd]
    omega
  · intro m d t hm hd ht
    simp [pastDeprecated, hm, hd]
    omega

/-- Witness for C5 at a concrete parse, instant 5, and the past, boundary
and active models. -/
theorem deprecation_partition_stable_witness :
    depPartition parseDemo 5 [mPast, mActive, mFuture] = [mActive, mFuture, mPast] ∧
    pastDeprecated parseDemo 5 mActive = false ∧
    pastDeprecated parseDemo 5 mBadDate = false ∧
    pastDeprecated parseDemo 5 mFuture = false ∧
    pastDeprecated parseDemo 5 mPast = true := by
  refine ⟨?_, ?_, ?_, ?_, ?_⟩
  · rw [(deprecation_partition_stable parseDemo 5 [mPast, mActive, mFuture]).1]
    decide
  · exact (deprecation_partition_stable parseDemo 5 []).2.1 mActive (by decide)
  · exact (deprecation_partition_stable parseDemo 5 []).2.2.1 mBadDate "not-a-date"
      (by decide) (by decide)
  · exact (deprecation_partition_stable parseDemo 5 []).2.2.2.1 mFuture "boundary" 5
      (by decide) (by decide) (by decide)
  · exact (deprecation_partition_stable parseDemo 5 []).2.2.2.2 mPast "past" 0
      (by decide) (by decide) (by decide)

/-- C6: the merge stage maps ids to models, fetched first then static, so
ids are unique in the merged output and for every id present in the static
list the (last) statically supplied model with that id is the one found in
the merged list. -/
theorem merge_static_wins_unique_ids (f s : List MModel) :
    ((mergeList f s).map (fun m => m.id)).Nodup ∧
    ∀ i : String, (∃ x ∈ s, x.id = i) →
      (mergeList f s).find? (fun m => m.id == i) = (withId s i).getLast? := by
  constructor
  · rw [mergeList_ids_eq_keys]
    exact mergeMap_keys_nodup f s
  · intro i hi
    rw [mergeList_find]
    obtain ⟨x, hx, hxi⟩ := hi
    have hmem : x ∈ withId s i := by
      unfold withId
      rw [List.mem_filter]
      exact ⟨hx, by simpa using hxi⟩
    have hne : withId s i ≠ [] := fun hc => by
      rw [hc] at hmem
      exact absurd hmem (List.not_mem_nil x)
    have hsome : (withId s i).getLast?.isSome := List.getLast?_isSome.mpr hne
    cases hg : (withId s i).getLast? with
    | none =>
      rw [hg] at hsome
      exact absurd hsome (by simp)
    | some y => rfl

/-- Witness for C6: a fetched and a static model share an id but differ in
name; the merged list is duplicate-free and carries the static model. -/
theorem merge_static_wins_unique_ids_witness :
    ((mergeList [mFetchSide] [mStaticSide]).map (fun m => m.id)).Nodup ∧
    (mergeList [mFetchSide] [mStaticSide]).find?
        (fun m => m.id == "shared-id") = some mStaticSide := by
  constructor
  · exact (merge_static_wins_unique_ids [mFetchSide] [mStaticSide]).1
  · rw [(merge_static_wins_unique_ids [mFetchSide] [mStaticSide]).2 "shared-id"
      ⟨mStaticSide, by decide, by decide⟩]
    decide

/-- C4: in the per-record loop, a record whose normalization throws is
excluded and a warning naming its id is emitted while the rest of the batch
still normalizes; in particular a batch of three records of which exactly
the middle one throws yields exactly the two other normalized models. -/
theorem per_record_isolation :
    (∀ (normalizer : Js → Except String MModel) (raws : List Js) (r : Js)
        (e : String), r ∈ raws → normalizer r = .error e →
      warnId r ∈ (processRecords normalizer raws).2) ∧
    (∀ (normalizer : Js → Except String MModel) (r1 r2 r3 : Js)
        (m1 m3 : MModel) (e : String),
      normalizer r1 = .ok m1 → m1.id ≠ "" → normalizer r2 = .error e →
      normalizer r3 = .ok m3 → m3.id ≠ "" →
      processRecords normalizer [r1, r2, r3] = ([m1, m3], [warnId r2])) := by
  constructor
  · intro normalizer raws r e hr herr
    rw [processRecords_spec]
    refine List.mem_filterMap.mpr ⟨r, hr, ?_⟩
    rw [herr]
  · intro normalizer r1 r2 r3 m1 m3 e h1 hid1 h2 h3 hid3
    rw [processRecords_spec]
    simp [h1, h2, h3, hid1, hid3]

/-- Witness for C4: three records, the middle one throwing, produce the two
good models and one warning naming the bad id. -/
theorem per_record_isolation_witness :
    processRecords normDemo [rawGood1, rawBad, rawGood2] =
      ([gdModel1, gdModel2], [Js.str "bad-model"]) ∧
    warnId rawBad = Js.str "bad-model" := by
  constructor
  · have h := per_record_isolation.2 normDemo rawGood1 rawBad rawGood2
      gdModel1 gdModel2 "boom" rfl (by decide) rfl rfl (by decide)
    rw [h]
    rfl
  · rfl

/-- C7: the heuristic applies case-insensitive word-boundary-anchored rules
in order — "gpt-4-vision-preview" matches nothing (in particular not video),
"dall-e-3" infers image, an id matching no rule yields no match — and the
dispatcher treats an unrecognized explicit type value such as "banana"
identically to an absent type, falling through to the heuristic and then the
text fallback. -/
theorem type_inference_and_dispatch :
    inferTypeFromId "gpt-4-vision-preview" = none ∧
    inferTypeFromId "dall-e-3" = some ModelType.image ∧
    (∀ id : String, (∀ r ∈ MODEL_ID_TYPE_PATTERNS, wbMatches r.1 id = false) →
      inferTypeFromId id = none) ∧
    explicitType (Js.str "banana") = none ∧
    (∀ raw : Js, explicitType (raw.get "type") = none →
      resolveType raw = (inferTypeFromId (dispatchId raw)).getD ModelType.text) ∧
    (∀ fields : List (String × Js), (fields.any fun p => p.1 == "type") = false →
      resolveType (.obj (("type", Js.str "banana") :: fields)) =
        resolveType (.obj fields)) := by
  have hfall : ∀ raw : Js, explicitType (raw.get "type") = none →
      resolveType raw = (inferTypeFromId (dispatchId raw)).getD ModelType.text := by
    intro raw h
    unfold resolveType
    rw [h]
    rfl
  refine ⟨by decide, by decide, ?_, rfl, hfall, ?_⟩
  · intro id h
    unfold inferTypeFromId
    rw [List.find?_eq_none.mpr]
    · rfl
    · intro r hr
      simp [h r hr]
  · intro fields h
    have hneq : ∀ k : String, k ≠ "type" →
        ¬((fun p : String × Js => p.1 == k) ("type", Js.str "banana") = true) := by
      intro k hk hc
      exact hk (eq_of_beq hc).symm
    have hget : ∀ k : String, k ≠ "type" →
        (Js.obj (("type", Js.str "banana") :: fields)).get k = (Js.obj fields).get k := by
      intro k hk
      simp only [Js.get]
      rw [@List.find?_cons_of_neg (String × Js) (fun p => p.1 == k)
        ("type", Js.str "banana") fields (hneq k hk)]
    have htyA : (Js.obj (("type", Js.str "banana") :: fields)).get "type" =
        Js.str "banana" := by
      simp only [Js.get]
      rw [@List.find?_cons_of_pos (String × Js) (fun p => p.1 == "type")
        ("type", Js.str "banana") fields (by rfl)]
    have htyB : (Js.obj fields).get "type" = Js.undefined := by
      simp only [Js.get]
      rw [List.find?_eq_none.mpr]
      intro p hp hq
      have htrue : (fields.any fun p => p.1 == "type") = true :=
        List.any_eq_true.mpr ⟨p, hp, hq⟩
      rw [h] at htrue
      exact Bool.noConfusion htrue
    rw [hfall _ (by rw [htyA]; rfl), hfall _ (by rw [htyB]; rfl)]
    have hid : dispatchId (Js.obj (("type", Js.str "banana") :: fields)) =
        dispatchId (Js.obj fields) := by
      unfold dispatchId
      rw [hget "id" (by decide), hget "model_id" (by decide)]
    rw [hid]

/-- Witness for C7: an id matching no rule, the dispatcher falling through on
an absent type, and the explicit "banana" behaving as an absent type on a
whisper id. -/
theorem type_inference_and_dispatch_witness :
    inferTypeFromId "gpt-foo" = none ∧
    resolveType (Js.obj [("id", Js.str "gpt-foo")]) =
      (inferTypeFromId (dispatchId (Js.obj [("id", Js.str "gpt-foo")]))).getD
        ModelType.text ∧
    resolveType (Js.obj [("type", Js.str "banana"), ("id", Js.str "whisper-1")]) =
      resolveType (Js.obj [("id", Js.str "whisper-1")]) := by
  refine ⟨?_, ?_, ?_⟩
  · refine type_inference_and_dispatch.2.2.1 "gpt-foo" ?_
    intro r hr
    fin_cases hr <;> decide
  · exact type_inference_and_dispatch.2.2.2.2.1
      (Js.obj [("id", Js.str "gpt-foo")]) (by decide)
  · exact type_inference_and_dispatch.2.2.2.2.2
      [("id", Js.str "whisper-1")] (by decide)

/-- C2 counterexample: with a present-but-empty flat pricing object and a
model-spec source carrying `input.usd = 6`, the code resolves pricing from
the empty first source (prompt is undefined), not from the first non-empty
source (which per the claim would give 0.000006). -/
theorem text_pricing_empty_source_cex :
    Js.get emptyFirstSourceRaw "pricing" = Js.obj [] ∧
    (((Js.get emptyFirstSourceRaw "model_spec").get "pricing").get "input").get "usd" =
      Js.num (.finite 6) ∧
    (normalizeTextModel 0 emptyFirstSourceRaw).toOption.map (fun m => m.pricing.prompt) =
      some none ∧
    (normalizeTextModel 0 emptyFirstSourceRaw).toOption.map (fun m => m.pricing.prompt) ≠
      some (some (.finite (6 / 1000000))) := by
  refine ⟨rfl, rfl, by decide, by decide⟩

/-- C2 (amended): the text pricing of every successfully normalized record
is resolved from exactly the first present (truthy) source in the fixed
order, with no field mixing; an explicit usd of 6 under the per-million
source yields 0.000006, and with no source at all every field is
undefined. -/
theorem text_pricing_first_present_source_wins :
    (∀ (nowSec : Int) (raw : Js),
      (normalizeTextModel nowSec raw).toOption.map (fun m => m.pricing) =
        (normalizeTextModel nowSec raw).toOption.map (fun _ => claimTextPricing raw)) ∧
    claimTextPricing perMillionSixRaw =
      { prompt := some (.finite (6 / 1000000)), completion := none,
        cache_input := none, cache_write := none } ∧
    claimTextPricing noPricingRaw =
      { prompt := none, completion := none, cache_input := none,
        cache_write := none } := by
  refine ⟨?_, by rfl, by rfl⟩
  intro nowSec raw
  unfold normalizeTextModel
  cases hb : extractBaseFields nowSec raw with
  | error e => rfl
  | ok base => rfl

/-- C8 counterexample: the string "Infinity" does not parse to a finite
number, yet toNum returns Infinity rather than absent. -/
theorem toNum_infinity_cex :
    toNum (Js.str "Infinity") = some JsNum.inf ∧
    some JsNum.inf ≠ (none : Option JsNum) := by
  exact ⟨by decide, by decide⟩

/-- C8 (amended): toNum is total (never throws), returns the value on finite
numbers and on numeric strings, returns absent on null, undefined, the empty
string and any value coercing to NaN, and passes the infinities through
instead of treating them as absent. -/
theorem toNum_characterization :
    toNum Js.null = none ∧
    toNum Js.undefined = none ∧
    toNum (Js.str "") = none ∧
    (∀ q : ℚ, toNum (Js.num (.finite q)) = some (.finite q)) ∧
    toNum (Js.num .nan) = none ∧
    toNum (Js.num .inf) = some JsNum.inf ∧
    toNum (Js.num .ninf) = some JsNum.ninf ∧
    (∀ v : Js, jsToNumber v = .nan → toNum v = none) ∧
    (∀ s : String, s ≠ "" →
      toNum (Js.str s) =
        match strToNumber s with
        | .nan => none
        | n => some n) := by
  refine ⟨rfl, rfl, by decide, fun q => rfl, rfl, rfl, rfl, ?_, ?_⟩
  · intro v h
    cases v with
    | null => rfl
    | undefined => rfl
    | bool b =>
      simp only [toNum]
      rw [show jsToNumber (Js.bool b) = .nan from h]
    | num n =>
      simp only [toNum]
      rw [show jsToNumber (Js.num n) = .nan from h]
    | str s =>
      have hs : strToNumber s = .nan := h
      simp only [toNum]
      by_cases he : s = ""
      · rw [he] at hs
        exact absurd hs (by decide)
      · rw [if_neg he, hs]
    | obj fields =>
      simp only [toNum]
      rw [show jsToNumber (Js.obj fields) = .nan from h]
    | arr elems =>
      simp only [toNum]
      rw [show jsToNumber (Js.arr elems) = .nan from h]
  · intro s hs
    simp only [toNum]
    rw [if_neg hs]

/-- Witness for C8 at a non-numeric and a numeric string. -/
theorem toNum_characterization_witness :
    toNum (Js.str "abc") = none ∧
    toNum (Js.str "42") = some (.finite 42) := by
  constructor
  · exact toNum_characterization.2.2.2.2.2.2.2.1 (Js.str "abc") (by decide)
  · rw [toNum_characterization.2.2.2.2.2.2.2.2 "42" (by decide)]
    decide

/-- C9: every record any of the eight per-variant normalizers successfully
normalizes carries `is_favorite = false`, whatever the raw input
contained. -/
theorem is_favorite_always_false (nowSec : Int) (raw : Js) :
    favFalse (fun m => m.base) (normalizeTextModel nowSec raw) = true ∧
    favFalse (fun m => m.base) (normalizeImageModel nowSec raw) = true ∧
    favFalse (fun m => m.base) (normalizeVideoModel nowSec raw) = true ∧
    favFalse (fun m => m.base) (normalizeInpaintModel nowSec raw) = true ∧
    favFalse (fun m => m.base) (normalizeEmbeddingModel nowSec raw) = true ∧
    favFalse (fun m => m.base) (normalizeTtsModel nowSec raw) = true ∧
    favFalse (fun m => m.base) (normalizeAsrModel nowSec raw) = true ∧
    favFalse (fun m => m.base) (normalizeUpscaleModel nowSec raw) = true := by
  cases hb : extractBaseFields nowSec raw with
  | error e =>
    refine ⟨?_, ?_, ?_, ?_, ?_, ?_, ?_, ?_⟩ <;>
      simp [normalizeTextModel, normalizeImageModel, normalizeVideoModel,
        normalizeInpaintModel, normalizeEmbeddingModel, normalizeTtsModel,
        normalizeAsrModel, normalizeUpscaleModel, hb, favFalse]
  | ok b =>
    have hfav := extractBaseFields_is_favorite nowSec raw b hb
    refine ⟨?_, ?_, ?_, ?_, ?_, ?_, ?_, ?_⟩ <;>
      simp [normalizeTextModel, normalizeImageModel, normalizeVideoModel,
        normalizeInpaintModel, normalizeEmbeddingModel, normalizeTtsModel,
        normalizeAsrModel, normalizeUpscaleModel, hb, favFalse, hfav]

end OMS
